import Mathlib

/-!
Verification of the email-attachment-downloader flow manager
(`emailattachmentdownloader.py`).

The development shallowly embeds the core of the program:

* `reMatch` models Python's `re.Pattern.match` (anchored at the start of the
  string, trailing content allowed) over `RegularExpression Char`.
* `Mail`, `Attachment`, `Mailbox`, `Config` model the data the program reads.
  Headers (`Subject`, `From`, `Content-Description`) are `Option` valued: a
  missing header makes `EmailMessage.__getitem__` return `None`, and
  `re.Pattern.match(None)` raises `TypeError`.
* `get_attachments` embeds `TitanFlowManager.get_attachments` (a generator):
  it returns the list of yielded `(uid, attachment)` pairs together with the
  IMAP operations performed and the terminating exception, if any.
* `runUploads`, `archive_uids`, `run`, `mainExitCode` embed the upload loop of
  `TitanFlowManager.run`, `TitanFlowManager.archive_uids` and the top-level
  error handling of `main`.
* `replaceAll`/`applyDateSubstitution` embed `str.replace` and the
  `YYYY`/`MM`/`DD` placeholder substitution performed by `main`.
-/

namespace EmailDownloader

/-- Strings are modelled as lists of characters. -/
abbrev Str := List Char

open RegularExpression

/-- Model of Python's `re.Pattern.match p s`: the match is anchored at the
start of `s` but need not consume all of `s`, so it succeeds exactly when some
prefix of `s` is in the language of `p`.  Executable via Brzozowski-derivative
matching (`rmatch`). -/
def reMatch (p : RegularExpression Char) (s : Str) : Bool :=
  s.inits.any fun t => p.rmatch t

/-- The Pattern Matcher contract `matchesMessage(subject, sender)` of the
specification: line 138 of the source applied to present headers. -/
def matchesMessage (ps pf : RegularExpression Char) (subject sender : Str) : Bool :=
  reMatch ps subject && reMatch pf sender

/-- The Pattern Matcher contract `matchesFilename(name)`: line 140 of the
source applied to a present `Content-Description`. -/
def matchesFilename (p : RegularExpression Char) (name : Str) : Bool :=
  reMatch p name

/-- An attachment part of a message.  `contentDescription` is the declared
filename carried in the `Content-Description` field; `none` models a message
part without that field (`attachment["Content-Description"]` is `None`). -/
structure Attachment where
  contentDescription : Option Str
  payload : Str
deriving DecidableEq

/-- A fetched message: `Subject` header, `From` header and attachment parts.
A `none` header models `mail["Subject"]`/`mail["From"]` returning `None`. -/
structure Mail where
  subject : Option Str
  sender : Option Str
  attachments : List Attachment
deriving DecidableEq

/-- The state of the IMAP server visible to the program: which folders exist,
the uids of the selected mailbox in natural (oldest-first) listing order as
returned by `uid("search", None, "ALL")`, and the message bound to each uid. -/
structure Mailbox where
  folders : List Str
  uids : List Nat
  fetch : Nat → Mail

/-- Configuration held by `TitanFlowManager` (fields of `__init__` that the
scan and run use; patterns are already compiled regular expressions). -/
structure Config where
  fetch_one : Bool
  match_date_received : Bool
  email_subject : RegularExpression Char
  email_sender : RegularExpression Char
  filename_pattern : RegularExpression Char
  archive_folder : Option Str

/-- Exceptions that can terminate the scan.

* `protocol diag` — `EmailDownloaderError` raised by `raise_if_not_ok` with
  the server diagnostic (here: the missing folder name);
* `noMatch` — `EmailDownloaderError("0 attachments were found matching the
  criteria.")` raised at line 146;
* `typeErr` — `TypeError` raised by `re.Pattern.match(None)` when a header is
  absent;
* `attrErr` — `AttributeError` raised at line 133: with
  `match_date_received` the variable `uids` is bound at line 130 to the raw
  `(status, data)` tuple returned by `imap.uid("search", ...)` (the
  `[1][0].split()` of line 132 is missing), and tuples have no `reverse`. -/
inductive ScanErr where
  | protocol (diag : Str)
  | noMatch
  | typeErr
  | attrErr
deriving DecidableEq

/-- IMAP and storage operations issued by the program, in order. -/
inductive Event where
  | select (folder : Option Str) (readonly : Bool)
  | searchOp
  | fetchOp (uid : Nat)
  | uploadOp (uid : Nat)
  | copyOp (uid : Nat)
  | storeOp (uid : Nat)
  | expungeOp
deriving DecidableEq

/-- Predicate `isFetch e`: holds for message-fetch operations. -/
def isFetch : Event → Bool
  | Event.fetchOp _ => true
  | _ => false

/-- Predicate `isUpload e`: holds for blob-upload operations. -/
def isUpload : Event → Bool
  | Event.uploadOp _ => true
  | _ => false

/-- Predicate `isArchiveOp e`: holds for the mailbox-mutating archival operations:
copy, mark-deleted (`STORE +FLAGS \Deleted`) and purge (`EXPUNGE`). -/
def isArchiveOp : Event → Bool
  | Event.copyOp _ => true
  | Event.storeOp _ => true
  | Event.expungeOp => true
  | _ => false

/-- Predicate `isReadonlySafe e`: holds for operations that cannot mutate the mailbox:
everything except archival operations and a non-readonly folder selection. -/
def isReadonlySafe : Event → Bool
  | Event.select _ readonly => readonly
  | Event.searchOp => true
  | Event.fetchOp _ => true
  | Event.uploadOp _ => true
  | _ => false

/-- Line 138 of the source:
`self.email_subject.match(mail["Subject"]) and self.email_sender.match(mail["From"])`.
Python evaluates the subject match first and short-circuits, so an absent
`From` header is only touched (raising `TypeError`) when the subject pattern
matched the subject. -/
def messageMatches (cfg : Config) (mail : Mail) : Except ScanErr Bool :=
  match mail.subject with
  | none => Except.error ScanErr.typeErr
  | some s =>
    if reMatch cfg.email_subject s then
      match mail.sender with
      | none => Except.error ScanErr.typeErr
      | some f => Except.ok (reMatch cfg.email_sender f)
    else
      Except.ok false

/-- Lines 139-142 of the source: iterate the attachments of a matching
message in order, yielding `(uid, attachment)` for each attachment whose
`Content-Description` matches the filename pattern.  An attachment without a
`Content-Description` raises `TypeError`; attachments already yielded before
that point stay yielded (the generator is lazy). -/
def scanAtts (p : RegularExpression Char) (uid : Nat) :
    List Attachment → List (Nat × Attachment) × Option ScanErr
  | [] => ([], none)
  | a :: rest =>
    match a.contentDescription with
    | none => ([], some ScanErr.typeErr)
    | some name =>
      let r := scanAtts p uid rest
      (if matchesFilename p name then (uid, a) :: r.1 else r.1, r.2)

/-- Result of running the `get_attachments` generator to termination: the
IMAP operations it performed, the `(uid, attachment)` pairs it yielded, and
the exception that escaped it, if any. -/
structure ScanOut where
  trace : List Event
  pairs : List (Nat × Attachment)
  err : Option ScanErr
deriving DecidableEq

/-- Lines 134-146 of the source: the candidate loop.  `found` is the sticky
`attachments_found` flag.  For each uid the message is fetched; a
subject+sender match scans its attachments; with `fetch_one`, the loop
returns as soon as the flag is set at the end of a matching message; an
exhausted candidate list without the flag raises the no-match error. -/
def scanLoop (cfg : Config) (fetch : Nat → Mail) :
    List Nat → Bool → ScanOut
  | [], found =>
    { trace := [], pairs := [],
      err := if found then none else some ScanErr.noMatch }
  | uid :: rest, found =>
    match messageMatches cfg (fetch uid) with
    | Except.error e =>
      { trace := [Event.fetchOp uid], pairs := [], err := some e }
    | Except.ok false =>
      let r := scanLoop cfg fetch rest found
      { trace := Event.fetchOp uid :: r.trace, pairs := r.pairs, err := r.err }
    | Except.ok true =>
      let m := scanAtts cfg.filename_pattern uid (fetch uid).attachments
      match m.2 with
      | some e =>
        { trace := [Event.fetchOp uid], pairs := m.1, err := some e }
      | none =>
        let found2 := found || !m.1.isEmpty
        if cfg.fetch_one && found2 then
          { trace := [Event.fetchOp uid], pairs := m.1, err := none }
        else
          let r := scanLoop cfg fetch rest found2
          { trace := Event.fetchOp uid :: r.trace, pairs := m.1 ++ r.pairs,
            err := r.err }

/-- Lines 127-146: select the inbox read-only, search, and loop over the
candidates.  With `match_date_received` the raw search response is bound to
`uids` (line 130 lacks the `[1][0].split()` of line 132), so `uids.reverse()`
at line 133 raises `AttributeError` before any message is fetched. -/
def scanBody (cfg : Config) (mbox : Mailbox) : ScanOut :=
  if cfg.match_date_received then
    { trace := [Event.select none true, Event.searchOp], pairs := [],
      err := some ScanErr.attrErr }
  else
    let r := scanLoop cfg mbox.fetch mbox.uids.reverse false
    { trace := Event.select none true :: Event.searchOp :: r.trace,
      pairs := r.pairs, err := r.err }

/-- Lines 125-146 of the source, `TitanFlowManager.get_attachments` run to
termination: if an archive folder is configured, probe its existence first
with a read-only select and raise the server diagnostic if it is absent;
then run the candidate scan. -/
def get_attachments (cfg : Config) (mbox : Mailbox) : ScanOut :=
  match cfg.archive_folder with
  | some f =>
    if f ∈ mbox.folders then
      let r := scanBody cfg mbox
      { trace := Event.select (some f) true :: r.trace, pairs := r.pairs,
        err := r.err }
    else
      { trace := [Event.select (some f) true], pairs := [],
        err := some (ScanErr.protocol f) }
  | none => scanBody cfg mbox

/-- Specification-side predicate: a message qualifies when its subject and
sender headers are present and match, and some attachment carries a
`Content-Description` matching the filename pattern. -/
def qualifying (cfg : Config) (mail : Mail) : Bool :=
  (match mail.subject with
   | none => false
   | some s => reMatch cfg.email_subject s) &&
  (match mail.sender with
   | none => false
   | some f => reMatch cfg.email_sender f) &&
  mail.attachments.any fun a =>
    match a.contentDescription with
    | none => false
    | some n => reMatch cfg.filename_pattern n

/-- Python `set.add` on a set represented as a duplicate-free list. -/
def setAdd (l : List Nat) (u : Nat) : List Nat :=
  if u ∈ l then l else l ++ [u]

/-- Result of the upload loop of `run`: the upload attempts made, the
`uids_to_move` set, and whether the loop finished without an upload error. -/
structure UploadOut where
  trace : List Event
  batch : List Nat
  ok : Bool
deriving DecidableEq

/-- Lines 159-161 of the source: for each yielded pair, upload the attachment
and only then add the uid to `uids_to_move`.  `outcomes i` tells whether the
`i`-th upload attempt succeeds; a failed upload raises, aborting the loop with
the uids accumulated so far. -/
def runUploads (outcomes : Nat → Bool) :
    List (Nat × Attachment) → Nat → List Nat → UploadOut
  | [], _, acc => { trace := [], batch := acc, ok := true }
  | (uid, _) :: rest, i, acc =>
    if outcomes i then
      let r := runUploads outcomes rest (i + 1) (setAdd acc uid)
      { trace := Event.uploadOp uid :: r.trace, batch := r.batch, ok := r.ok }
    else
      { trace := [Event.uploadOp uid], batch := acc, ok := false }

/-- Lines 96-108 of the source, `TitanFlowManager.archive_uids`: re-select
the inbox without `readonly` (the only point where the session leaves
read-only mode), then copy and mark-deleted each uid, then expunge. -/
def archive_uids (uids : List Nat) : List Event :=
  Event.select none false ::
    (uids.flatMap fun u => [Event.copyOp u, Event.storeOp u]) ++
    [Event.expungeOp]

/-- Errors escaping `TitanFlowManager.run`. -/
inductive RunErr where
  | scan (e : ScanErr)
  | uploadFailed
deriving DecidableEq

/-- Result of `TitanFlowManager.run`. -/
structure RunOut where
  trace : List Event
  batch : List Nat
  err : Option RunErr
deriving DecidableEq

/-- Error escaping `run`: a failed upload raises out of the loop; otherwise
the exception pending in the generator (if any) propagates at the final
pull. -/
def runErrOf (sErr : Option ScanErr) (ok : Bool) : Option RunErr :=
  if ok then
    match sErr with
    | some e => some (RunErr.scan e)
    | none => none
  else some RunErr.uploadFailed

/-- Lines 148-165 of the source, `TitanFlowManager.run`: drive the generator,
uploading each yielded pair.  The generator is lazy, so a failed upload
aborts before any later scan step runs; if every yielded pair uploads, a
pending scan exception propagates; otherwise, archive if a folder was
configured. -/
def run (cfg : Config) (mbox : Mailbox) (outcomes : Nat → Bool) : RunOut :=
  let s := get_attachments cfg mbox
  let u := runUploads outcomes s.pairs 0 []
  { trace :=
      s.trace ++ u.trace ++
        (if u.ok && s.err.isNone && cfg.archive_folder.isSome then
          archive_uids u.batch
        else []),
    batch := u.batch,
    err := runErrOf s.err u.ok }

/-- Lines 218-222 of the source: `main` catches every exception from
`flow_manager.run()` and calls `sys.exit` with a short message, which
terminates the process with exit status 1; otherwise the process exits 0. -/
def mainExitCode (cfg : Config) (mbox : Mailbox) (outcomes : Nat → Bool) : Nat :=
  if (run cfg mbox outcomes).err = none then 0 else 1

/-- Python's `str.replace(pat, rep)`: replace every non-overlapping
occurrence of `pat`, scanning left to right.  Only used with `pat ≠ []`. -/
def replaceAll (pat rep : Str) : Str → Str
  | [] => []
  | c :: rest =>
    if h : pat ≠ [] ∧ pat <+: (c :: rest) then
      rep ++ replaceAll pat rep ((c :: rest).drop pat.length)
    else
      c :: replaceAll pat rep rest
termination_by s => s.length
decreasing_by
  · simp only [List.length_drop, List.length_cons]
    have : 0 < pat.length := List.length_pos.mpr h.1
    omega
  · simp only [List.length_cons]
    omega

/-- Decimal digit character of `n % 10`. -/
def digitChar (n : Nat) : Char :=
  match n % 10 with
  | 0 => '0' | 1 => '1' | 2 => '2' | 3 => '3' | 4 => '4'
  | 5 => '5' | 6 => '6' | 7 => '7' | 8 => '8' | _ => '9'

/-- Decimal digit string of `n` (most significant digit first). -/
def natDigits (n : Nat) : Str :=
  if n < 10 then [digitChar n]
  else natDigits (n / 10) ++ [digitChar n]
termination_by n
decreasing_by
  exact Nat.div_lt_self (by omega) (by omega)

/-- Left-pad a digit string with `'0'` to width `k`, as `datetime.date`'s
ISO format does for year, month and day. -/
def padZeros (k : Nat) (s : Str) : Str :=
  List.replicate (k - s.length) '0' ++ s

/-- A calendar date as carried by `--load-date`. -/
structure Date where
  year : Nat
  month : Nat
  day : Nat

/-- The literal placeholder `YYYY`. -/
def litYYYY : Str := ['Y', 'Y', 'Y', 'Y']

/-- The literal placeholder `MM`. -/
def litMM : Str := ['M', 'M']

/-- The literal placeholder `DD`. -/
def litDD : Str := ['D', 'D']

/-- The 4-digit year string of a date (`str(load_date).split("-")[0]`). -/
def dateYYYY (d : Date) : Str := padZeros 4 (natDigits d.year)

/-- The 2-digit month string of a date. -/
def dateMM (d : Date) : Str := padZeros 2 (natDigits d.month)

/-- The 2-digit day string of a date. -/
def dateDD (d : Date) : Str := padZeros 2 (natDigits d.day)

/-- Lines 214-215 of the source:
`filename_pattern.replace("YYYY", yyyy).replace("MM", mm).replace("DD", dd)`
with `yyyy, mm, dd = str(load_date).split("-")`. -/
def applyDateSubstitution (template : Str) (d : Date) : Str :=
  replaceAll litDD (dateDD d)
    (replaceAll litMM (dateMM d)
      (replaceAll litYYYY (dateYYYY d) template))

/-! ### Anchored-at-start matching semantics -/

lemma reMatch_iff (p : RegularExpression Char) (s : Str) :
    reMatch p s = true ↔ ∃ a b : Str, s = a ++ b ∧ a ∈ p.matches' := by
  unfold reMatch
  rw [List.any_eq_true]
  constructor
  · rintro ⟨t, ht, hm⟩
    rw [List.mem_inits] at ht
    obtain ⟨b, rfl⟩ := ht
    exact ⟨t, b, rfl, (rmatch_iff_matches' p t).mp hm⟩
  · rintro ⟨a, b, rfl, ha⟩
    exact ⟨a, (List.mem_inits a (a ++ b)).mpr ⟨b, rfl⟩,
      (rmatch_iff_matches' p a).mpr ha⟩

/-- C5: `matchesMessage` returns true iff the subject pattern matches the
subject anchored at the start of the string and the sender pattern matches
the sender anchored at the start; the same anchored-at-start (prefix, not
full-string) semantics hold for `matchesFilename`, so a matched prefix
followed by arbitrary trailing content is still accepted and a string with
no matching prefix is rejected. -/
theorem matchesMessage_anchored_semantics
    (ps pf pn : RegularExpression Char) (subject sender name pre t : Str) :
    (matchesMessage ps pf subject sender = true ↔
      ((∃ a b, subject = a ++ b ∧ a ∈ ps.matches') ∧
       (∃ a b, sender = a ++ b ∧ a ∈ pf.matches'))) ∧
    (matchesFilename pn name = true ↔
      ∃ a b, name = a ++ b ∧ a ∈ pn.matches') ∧
    (pre ∈ pn.matches' → matchesFilename pn (pre ++ t) = true) := by
  refine ⟨?_, ?_, ?_⟩
  · unfold matchesMessage
    rw [Bool.and_eq_true, reMatch_iff, reMatch_iff]
  · unfold matchesFilename
    exact reMatch_iff pn name
  · intro h
    unfold matchesFilename
    rw [reMatch_iff]
    exact ⟨pre, t, rfl, h⟩

theorem matchesMessage_anchored_semantics_witness :
    ['a'] ∈ (char 'a' : RegularExpression Char).matches' ∧
    matchesFilename (char 'a') (['a'] ++ ['b']) = true :=
  ⟨by rw [matches'_char]; exact Set.mem_singleton_iff.mpr rfl,
    (matchesMessage_anchored_semantics (char 'a') (char 'a') (char 'a')
      [] [] [] ['a'] ['b']).2.2
      (by rw [matches'_char]; exact Set.mem_singleton_iff.mpr rfl)⟩

/-! ### The archive batch (claim C1) -/

lemma setAdd_mem (l : List Nat) (u v : Nat) :
    v ∈ setAdd l u ↔ v ∈ l ∨ v = u := by
  unfold setAdd
  split
  · rename_i h
    constructor
    · exact Or.inl
    · rintro (hv | rfl)
      · exact hv
      · exact h
  · simp [List.mem_append]

lemma runUploads_batch_mem (outcomes : Nat → Bool) :
    ∀ (ps : List (Nat × Attachment)) (base : Nat) (acc : List Nat) (u : Nat),
      u ∈ (runUploads outcomes ps base acc).batch ↔
        u ∈ acc ∨ ∃ k, ∃ hk : k < ps.length,
          (ps.get ⟨k, hk⟩).1 = u ∧ ∀ j, j ≤ k → outcomes (base + j) = true := by
  intro ps
  induction ps with
  | nil =>
    intro base acc u
    simp [runUploads]
  | cons p rest ih =>
    intro base acc u
    obtain ⟨uid, att⟩ := p
    by_cases hb : outcomes base = true
    · simp only [runUploads, hb, if_true]
      rw [ih (base + 1) (setAdd acc uid) u, setAdd_mem]
      constructor
      · rintro ((h | rfl) | ⟨k, hk, hu, hall⟩)
        · exact Or.inl h
        · refine Or.inr ⟨0, by simp, rfl, ?_⟩
          intro j hj
          interval_cases j
          simpa using hb
        · refine Or.inr ⟨k + 1, by simpa using Nat.succ_lt_succ hk, by simpa using hu, ?_⟩
          intro j hj
          cases j with
          | zero => simpa using hb
          | succ j' =>
            have h1 : base + (j' + 1) = base + 1 + j' := by omega
            rw [h1]
            exact hall j' (by omega)
      · rintro (h | ⟨k, hk, hu, hall⟩)
        · exact Or.inl (Or.inl h)
        · cases k with
          | zero =>
            simp only [List.get] at hu
            exact Or.inl (Or.inr hu.symm)
          | succ k' =>
            refine Or.inr ⟨k', by simpa using Nat.lt_of_succ_lt_succ hk, by simpa using hu, ?_⟩
            intro j hj
            have h1 : base + 1 + j = base + (j + 1) := by omega
            rw [h1]
            exact hall (j + 1) (by omega)
    · have hb' : outcomes base = false := by
        cases h : outcomes base
        · rfl
        · exact absurd h hb
      simp only [runUploads, hb', Bool.false_eq_true, if_false]
      constructor
      · exact Or.inl
      · rintro (h | ⟨k, hk, hu, hall⟩)
        · exact h
        · have := hall 0 (Nat.zero_le k)
          rw [Nat.add_zero] at this
          exact absurd this hb


/-- C1: for every run and every sequence of upload outcomes, a message
identifier is in `uids_to_move` (the archive batch) iff one of its
attachments' uploads was attempted and returned success, i.e. iff some yielded
pair carries that uid at a position `k` such that the uploads at all positions
up to and including `k` succeeded; in particular no identifier whose uploads
all failed or are still pending is ever in the batch, including when the
archiver consumes it. -/
theorem archive_batch_iff_upload_success (cfg : Config) (mbox : Mailbox)
    (outcomes : Nat → Bool) (uid : Nat) :
    uid ∈ (run cfg mbox outcomes).batch ↔
      ∃ k, ∃ hk : k < (get_attachments cfg mbox).pairs.length,
        ((get_attachments cfg mbox).pairs.get ⟨k, hk⟩).1 = uid ∧
        ∀ j, j ≤ k → outcomes j = true := by
  have hb : (run cfg mbox outcomes).batch =
      (runUploads outcomes (get_attachments cfg mbox).pairs 0 []).batch := rfl
  rw [hb, runUploads_batch_mem]
  simp

/-! ### Lemmas about per-message matching -/

lemma messageMatches_error_eq (cfg : Config) (mail : Mail) (e : ScanErr)
    (h : messageMatches cfg mail = Except.error e) : e = ScanErr.typeErr := by
  unfold messageMatches at h
  cases hs : mail.subject with
  | none =>
    simp only [hs] at h
    injection h with h
    exact h.symm
  | some s =>
    simp only [hs] at h
    by_cases hm : reMatch cfg.email_subject s = true
    · rw [if_pos hm] at h
      cases hf : mail.sender with
      | none =>
        simp only [hf] at h
        injection h with h
        exact h.symm
      | some f =>
        simp only [hf] at h
        exact Except.noConfusion h
    · rw [if_neg hm] at h
      exact Except.noConfusion h

lemma messageMatches_ok_true (cfg : Config) (mail : Mail)
    (h : messageMatches cfg mail = Except.ok true) :
    ∃ s f, mail.subject = some s ∧ mail.sender = some f ∧
      reMatch cfg.email_subject s = true ∧ reMatch cfg.email_sender f = true := by
  unfold messageMatches at h
  cases hs : mail.subject with
  | none =>
    simp only [hs] at h
    exact Except.noConfusion h
  | some s =>
    simp only [hs] at h
    by_cases hm : reMatch cfg.email_subject s = true
    · rw [if_pos hm] at h
      cases hf : mail.sender with
      | none =>
        simp only [hf] at h
        exact Except.noConfusion h
      | some f =>
        simp only [hf] at h
        injection h with h
        exact ⟨s, f, rfl, rfl, hm, h⟩
    · rw [if_neg hm] at h
      injection h with h
      exact Bool.noConfusion h

lemma qualifying_false_of_ok_false (cfg : Config) (mail : Mail)
    (h : messageMatches cfg mail = Except.ok false) :
    qualifying cfg mail = false := by
  unfold messageMatches at h
  unfold qualifying
  cases hs : mail.subject with
  | none => simp
  | some s =>
    simp only [hs] at h
    by_cases hm : reMatch cfg.email_subject s = true
    · rw [if_pos hm] at h
      cases hf : mail.sender with
      | none =>
        simp only [hf] at h
        exact Except.noConfusion h
      | some f =>
        simp only [hf] at h
        injection h with h
        simp [h]
    · have hm' : reMatch cfg.email_subject s = false := by
        cases hv : reMatch cfg.email_subject s
        · rfl
        · exact absurd hv hm
      simp [hm']

/-! ### Lemmas about the attachment scan of one message -/

lemma scanAtts_pair_mem (p : RegularExpression Char) (uid : Nat) :
    ∀ atts : List Attachment, ∀ q ∈ (scanAtts p uid atts).1,
      q.1 = uid ∧ q.2 ∈ atts ∧
      ∃ n, q.2.contentDescription = some n ∧ matchesFilename p n = true := by
  intro atts
  induction atts with
  | nil =>
    intro q hq
    simp [scanAtts] at hq
  | cons a rest ih =>
    intro q hq
    simp only [scanAtts] at hq
    cases hd : a.contentDescription with
    | none =>
      simp only [hd] at hq
      simp at hq
    | some n =>
      simp only [hd] at hq
      by_cases hm : matchesFilename p n = true
      · rw [if_pos hm] at hq
        rcases List.mem_cons.mp hq with rfl | hq'
        · exact ⟨rfl, List.mem_cons_self a rest, n, hd, hm⟩
        · obtain ⟨h1, h2, h3⟩ := ih q hq'
          exact ⟨h1, List.mem_cons_of_mem a h2, h3⟩
      · rw [if_neg hm] at hq
        obtain ⟨h1, h2, h3⟩ := ih q hq
        exact ⟨h1, List.mem_cons_of_mem a h2, h3⟩

lemma scanAtts_err_some_iff (p : RegularExpression Char) (uid : Nat) :
    ∀ atts : List Attachment,
      (scanAtts p uid atts).2 = some ScanErr.typeErr ↔
        ∃ a ∈ atts, a.contentDescription = none := by
  intro atts
  induction atts with
  | nil => simp [scanAtts]
  | cons a rest ih =>
    cases hd : a.contentDescription with
    | none =>
      simp only [scanAtts, hd]
      exact ⟨fun _ => ⟨a, List.mem_cons_self a rest, hd⟩, fun _ => trivial⟩
    | some n =>
      simp only [scanAtts, hd]
      rw [ih]
      constructor
      · rintro ⟨b, hb, hbd⟩
        exact ⟨b, List.mem_cons_of_mem a hb, hbd⟩
      · rintro ⟨b, hb, hbd⟩
        rcases List.mem_cons.mp hb with rfl | hb'
        · rw [hd] at hbd
          exact (Option.some_ne_none n hbd).elim
        · exact ⟨b, hb', hbd⟩

lemma scanAtts_err_cases (p : RegularExpression Char) (uid : Nat) :
    ∀ atts : List Attachment,
      (scanAtts p uid atts).2 = none ∨
        (scanAtts p uid atts).2 = some ScanErr.typeErr := by
  intro atts
  induction atts with
  | nil => exact Or.inl rfl
  | cons a rest ih =>
    cases hd : a.contentDescription with
    | none =>
      right
      simp [scanAtts, hd]
    | some n =>
      simpa only [scanAtts, hd] using ih

lemma scanAtts_no_yield (p : RegularExpression Char) (uid : Nat) :
    ∀ atts : List Attachment,
      (scanAtts p uid atts).2 = none → (scanAtts p uid atts).1 = [] →
      ∀ a ∈ atts, ∃ n, a.contentDescription = some n ∧
        matchesFilename p n = false := by
  intro atts
  induction atts with
  | nil =>
    intro _ _ a ha
    simp at ha
  | cons a rest ih =>
    intro he hp b hb
    cases hd : a.contentDescription with
    | none =>
      simp [scanAtts, hd] at he
    | some n =>
      simp only [scanAtts, hd] at he hp
      by_cases hm : matchesFilename p n = true
      · rw [if_pos hm] at hp
        exact List.noConfusion hp
      · rw [if_neg hm] at hp
        rcases List.mem_cons.mp hb with rfl | hb'
        · refine ⟨n, hd, ?_⟩
          cases hv : matchesFilename p n
          · rfl
          · exact absurd hv hm
        · exact ih he hp b hb'

lemma qualifying_of_yield (cfg : Config) (uid : Nat) (mail : Mail)
    (hmm : messageMatches cfg mail = Except.ok true)
    (q : Nat × Attachment)
    (hq : q ∈ (scanAtts cfg.filename_pattern uid mail.attachments).1) :
    qualifying cfg mail = true := by
  obtain ⟨s, f, hs, hf, hms, hmf⟩ := messageMatches_ok_true cfg mail hmm
  obtain ⟨_, hmem, n, hd, hm⟩ :=
    scanAtts_pair_mem cfg.filename_pattern uid mail.attachments q hq
  unfold qualifying
  rw [hs, hf]
  simp only [hms, hmf, Bool.true_and]
  rw [List.any_eq_true]
  refine ⟨q.2, hmem, ?_⟩
  rw [hd]
  exact hm

lemma qualifying_false_of_no_yield (cfg : Config) (uid : Nat) (mail : Mail)
    (hmm : messageMatches cfg mail = Except.ok true)
    (he : (scanAtts cfg.filename_pattern uid mail.attachments).2 = none)
    (hp : (scanAtts cfg.filename_pattern uid mail.attachments).1 = []) :
    qualifying cfg mail = false := by
  obtain ⟨s, f, hs, hf, hms, hmf⟩ := messageMatches_ok_true cfg mail hmm
  unfold qualifying
  rw [hs, hf]
  simp only [hms, hmf, Bool.true_and]
  rw [List.any_eq_false]
  intro a ha
  obtain ⟨n, hd, hm⟩ :=
    scanAtts_no_yield cfg.filename_pattern uid mail.attachments he hp a ha
  rw [hd]
  unfold matchesFilename at hm
  simp [hm]

/-! ### Unfolding equations for the candidate loop -/

lemma scanLoop_cons_error (cfg : Config) (fetch : Nat → Mail) (uid : Nat)
    (rest : List Nat) (found : Bool) (e : ScanErr)
    (h : messageMatches cfg (fetch uid) = Except.error e) :
    scanLoop cfg fetch (uid :: rest) found =
      { trace := [Event.fetchOp uid], pairs := [], err := some e } := by
  simp only [scanLoop, h]

lemma scanLoop_cons_skip (cfg : Config) (fetch : Nat → Mail) (uid : Nat)
    (rest : List Nat) (found : Bool)
    (h : messageMatches cfg (fetch uid) = Except.ok false) :
    scanLoop cfg fetch (uid :: rest) found =
      { trace := Event.fetchOp uid :: (scanLoop cfg fetch rest found).trace,
        pairs := (scanLoop cfg fetch rest found).pairs,
        err := (scanLoop cfg fetch rest found).err } := by
  simp only [scanLoop, h]

lemma scanLoop_cons_attErr (cfg : Config) (fetch : Nat → Mail) (uid : Nat)
    (rest : List Nat) (found : Bool) (e : ScanErr)
    (h : messageMatches cfg (fetch uid) = Except.ok true)
    (ha : (scanAtts cfg.filename_pattern uid (fetch uid).attachments).2 = some e) :
    scanLoop cfg fetch (uid :: rest) found =
      { trace := [Event.fetchOp uid],
        pairs := (scanAtts cfg.filename_pattern uid (fetch uid).attachments).1,
        err := some e } := by
  simp only [scanLoop, h, ha]

lemma scanLoop_cons_cut (cfg : Config) (fetch : Nat → Mail) (uid : Nat)
    (rest : List Nat) (found : Bool)
    (h : messageMatches cfg (fetch uid) = Except.ok true)
    (ha : (scanAtts cfg.filename_pattern uid (fetch uid).attachments).2 = none)
    (hc : (cfg.fetch_one &&
      (found || !(scanAtts cfg.filename_pattern uid (fetch uid).attachments).1.isEmpty)) = true) :
    scanLoop cfg fetch (uid :: rest) found =
      { trace := [Event.fetchOp uid],
        pairs := (scanAtts cfg.filename_pattern uid (fetch uid).attachments).1,
        err := none } := by
  simp only [scanLoop, h, ha, hc, if_true]

lemma scanLoop_cons_go (cfg : Config) (fetch : Nat → Mail) (uid : Nat)
    (rest : List Nat) (found : Bool)
    (h : messageMatches cfg (fetch uid) = Except.ok true)
    (ha : (scanAtts cfg.filename_pattern uid (fetch uid).attachments).2 = none)
    (hc : (cfg.fetch_one &&
      (found || !(scanAtts cfg.filename_pattern uid (fetch uid).attachments).1.isEmpty)) = false) :
    scanLoop cfg fetch (uid :: rest) found =
      { trace := Event.fetchOp uid ::
          (scanLoop cfg fetch rest
            (found || !(scanAtts cfg.filename_pattern uid (fetch uid).attachments).1.isEmpty)).trace,
        pairs := (scanAtts cfg.filename_pattern uid (fetch uid).attachments).1 ++
          (scanLoop cfg fetch rest
            (found || !(scanAtts cfg.filename_pattern uid (fetch uid).attachments).1.isEmpty)).pairs,
        err := (scanLoop cfg fetch rest
          (found || !(scanAtts cfg.filename_pattern uid (fetch uid).attachments).1.isEmpty)).err } := by
  simp only [scanLoop, h, ha, hc, Bool.false_eq_true, if_false]

/-! ### Unfolding equations for the scan wrapper -/

lemma scanBody_date (cfg : Config) (mbox : Mailbox)
    (h : cfg.match_date_received = true) :
    scanBody cfg mbox =
      { trace := [Event.select none true, Event.searchOp], pairs := [],
        err := some ScanErr.attrErr } := by
  simp only [scanBody, h, if_true]

lemma scanBody_all (cfg : Config) (mbox : Mailbox)
    (h : cfg.match_date_received = false) :
    scanBody cfg mbox =
      { trace := Event.select none true :: Event.searchOp ::
          (scanLoop cfg mbox.fetch mbox.uids.reverse false).trace,
        pairs := (scanLoop cfg mbox.fetch mbox.uids.reverse false).pairs,
        err := (scanLoop cfg mbox.fetch mbox.uids.reverse false).err } := by
  simp only [scanBody, h, Bool.false_eq_true, if_false]

lemma get_attachments_no_folder (cfg : Config) (mbox : Mailbox)
    (h : cfg.archive_folder = none) :
    get_attachments cfg mbox = scanBody cfg mbox := by
  simp only [get_attachments, h]

lemma get_attachments_folder_exists (cfg : Config) (mbox : Mailbox) (f : Str)
    (h : cfg.archive_folder = some f) (hm : f ∈ mbox.folders) :
    get_attachments cfg mbox =
      { trace := Event.select (some f) true :: (scanBody cfg mbox).trace,
        pairs := (scanBody cfg mbox).pairs,
        err := (scanBody cfg mbox).err } := by
  simp only [get_attachments, h]
  rw [if_pos hm]

lemma get_attachments_folder_missing (cfg : Config) (mbox : Mailbox) (f : Str)
    (h : cfg.archive_folder = some f) (hm : f ∉ mbox.folders) :
    get_attachments cfg mbox =
      { trace := [Event.select (some f) true], pairs := [],
        err := some (ScanErr.protocol f) } := by
  simp only [get_attachments, h]
  rw [if_neg hm]

/-! ### Error characterization of the candidate loop (claim C3) -/

lemma scanLoop_err_spec (cfg : Config) (fetch : Nat → Mail) :
    ∀ (uids : List Nat) (found : Bool),
      ((scanLoop cfg fetch uids found).err = none →
        found = true ∨ (scanLoop cfg fetch uids found).pairs ≠ []) ∧
      ((scanLoop cfg fetch uids found).err = some ScanErr.noMatch →
        found = false ∧ (scanLoop cfg fetch uids found).pairs = []) := by
  intro uids
  induction uids with
  | nil =>
    intro found
    cases found
    · exact ⟨fun h => Option.noConfusion h, fun _ => ⟨rfl, rfl⟩⟩
    · exact ⟨fun _ => Or.inl rfl, fun h => Option.noConfusion h⟩
  | cons uid rest ih =>
    intro found
    cases hmm : messageMatches cfg (fetch uid) with
    | error er =>
      have het : er = ScanErr.typeErr := messageMatches_error_eq _ _ _ hmm
      subst het
      rw [scanLoop_cons_error cfg fetch uid rest found _ hmm]
      refine ⟨fun h => Option.noConfusion h, fun h => ?_⟩
      injection h with h
      exact ScanErr.noConfusion h
    | ok b =>
      cases b with
      | false =>
        rw [scanLoop_cons_skip cfg fetch uid rest found hmm]
        exact ih found
      | true =>
        cases ha : (scanAtts cfg.filename_pattern uid (fetch uid).attachments).2 with
        | some er =>
          have het : er = ScanErr.typeErr := by
            rcases scanAtts_err_cases cfg.filename_pattern uid
                (fetch uid).attachments with hn | ht
            · rw [ha] at hn
              exact Option.noConfusion hn
            · rw [ha] at ht
              exact Option.some.inj ht
          subst het
          rw [scanLoop_cons_attErr cfg fetch uid rest found _ hmm ha]
          refine ⟨fun h => Option.noConfusion h, fun h => ?_⟩
          injection h with h
          exact ScanErr.noConfusion h
        | none =>
          cases hc : (cfg.fetch_one && (found ||
              !(scanAtts cfg.filename_pattern uid (fetch uid).attachments).1.isEmpty)) with
          | true =>
            rw [scanLoop_cons_cut cfg fetch uid rest found hmm ha hc]
            refine ⟨fun _ => ?_, fun h => Option.noConfusion h⟩
            rcases Bool.and_eq_true .. |>.mp hc with ⟨_, hor⟩
            rcases Bool.or_eq_true .. |>.mp hor with hfd | hne
            · exact Or.inl hfd
            · right
              intro hnil
              have hnil2 : (scanAtts cfg.filename_pattern uid
                  (fetch uid).attachments).1 = [] := hnil
              rw [hnil2] at hne
              simp at hne
          | false =>
            rw [scanLoop_cons_go cfg fetch uid rest found hmm ha hc]
            obtain ⟨ih1, ih2⟩ := ih (found ||
              !(scanAtts cfg.filename_pattern uid (fetch uid).attachments).1.isEmpty)
            refine ⟨fun h => ?_, fun h => ?_⟩
            · rcases ih1 h with hf2 | hp2
              · rcases Bool.or_eq_true .. |>.mp hf2 with hfd | hne
                · exact Or.inl hfd
                · right
                  intro hnil
                  have hnil2 : (scanAtts cfg.filename_pattern uid
                      (fetch uid).attachments).1 ++
                      (scanLoop cfg fetch rest (found ||
                        !(scanAtts cfg.filename_pattern uid
                          (fetch uid).attachments).1.isEmpty)).pairs = [] := hnil
                  rcases List.append_eq_nil.mp hnil2 with ⟨hn1, _⟩
                  rw [hn1] at hne
                  simp at hne
              · right
                intro hnil
                have hnil2 : (scanAtts cfg.filename_pattern uid
                    (fetch uid).attachments).1 ++
                    (scanLoop cfg fetch rest (found ||
                      !(scanAtts cfg.filename_pattern uid
                        (fetch uid).attachments).1.isEmpty)).pairs = [] := hnil
                rcases List.append_eq_nil.mp hnil2 with ⟨_, hn2⟩
                exact hp2 hn2
            · obtain ⟨hf2, hp2⟩ := ih2 h
              rcases Bool.or_eq_false_iff.mp hf2 with ⟨hfd, hne⟩
              have hm1 : (scanAtts cfg.filename_pattern uid
                  (fetch uid).attachments).1 = [] := by
                cases hl : (scanAtts cfg.filename_pattern uid
                    (fetch uid).attachments).1 with
                | nil => rfl
                | cons x xs =>
                  rw [hl] at hne
                  simp at hne
              refine ⟨hfd, ?_⟩
              show (scanAtts cfg.filename_pattern uid
                  (fetch uid).attachments).1 ++
                  (scanLoop cfg fetch rest (found ||
                    !(scanAtts cfg.filename_pattern uid
                      (fetch uid).attachments).1.isEmpty)).pairs = []
              rw [hp2, hm1]
              rfl

lemma scanBody_err_spec (cfg : Config) (mbox : Mailbox) :
    ((scanBody cfg mbox).err = none → (scanBody cfg mbox).pairs ≠ []) ∧
    ((scanBody cfg mbox).err = some ScanErr.noMatch →
      (scanBody cfg mbox).pairs = []) := by
  cases hmd : cfg.match_date_received with
  | true =>
    rw [scanBody_date cfg mbox hmd]
    refine ⟨fun h => Option.noConfusion h, fun h => ?_⟩
    injection h with h
    exact ScanErr.noConfusion h
  | false =>
    rw [scanBody_all cfg mbox hmd]
    obtain ⟨h1, h2⟩ := scanLoop_err_spec cfg mbox.fetch mbox.uids.reverse false
    refine ⟨fun h => ?_, fun h => ?_⟩
    · rcases h1 h with hf | hp
      · exact Bool.noConfusion hf
      · exact hp
    · exact (h2 h).2

/-- C3: if the scan completes (mailbox exhausted or cutoff triggered) without
yielding any pair it fails with the no-match error rather than silently
succeeding — a scan that terminates without exception always yielded at
least one pair; conversely a scan that yielded a pair never raises the
no-match error; and the no-match error is a condition distinct from a
protocol error. -/
theorem scan_no_match_policy (cfg : Config) (mbox : Mailbox) :
    ((get_attachments cfg mbox).err = none →
      (get_attachments cfg mbox).pairs ≠ []) ∧
    ((get_attachments cfg mbox).err = some ScanErr.noMatch →
      (get_attachments cfg mbox).pairs = []) ∧
    (∀ diag : Str, ScanErr.noMatch ≠ ScanErr.protocol diag) := by
  refine ⟨?_, ?_, fun diag h => ScanErr.noConfusion h⟩
  · cases haf : cfg.archive_folder with
    | none =>
      rw [get_attachments_no_folder cfg mbox haf]
      exact (scanBody_err_spec cfg mbox).1
    | some f =>
      by_cases hmem : f ∈ mbox.folders
      · rw [get_attachments_folder_exists cfg mbox f haf hmem]
        exact (scanBody_err_spec cfg mbox).1
      · rw [get_attachments_folder_missing cfg mbox f haf hmem]
        exact fun h => Option.noConfusion h
  · cases haf : cfg.archive_folder with
    | none =>
      rw [get_attachments_no_folder cfg mbox haf]
      exact (scanBody_err_spec cfg mbox).2
    | some f =>
      by_cases hmem : f ∈ mbox.folders
      · rw [get_attachments_folder_exists cfg mbox f haf hmem]
        exact (scanBody_err_spec cfg mbox).2
      · rw [get_attachments_folder_missing cfg mbox f haf hmem]
        intro h
        injection h with h
        exact ScanErr.noConfusion h

/-! ### Sample inputs used by the witnesses -/

/-- Sample pattern: matches strings that start with `a`. -/
def patA : RegularExpression Char := char 'a'

/-- Sample attachment whose declared filename is `a`. -/
def attA : Attachment := { contentDescription := some ['a'], payload := ['x'] }

/-- Sample message matching `patA` on subject and sender, with one matching
attachment. -/
def mailGood : Mail :=
  { subject := some ['a'], sender := some ['a', 'b'], attachments := [attA] }

/-- Sample message whose subject does not match `patA` and whose `From`
header is absent. -/
def mailSkip : Mail :=
  { subject := some ['b'], sender := none, attachments := [] }

/-- Base sample configuration: no date restriction, scan everything. -/
def cfgBase : Config :=
  { fetch_one := false, match_date_received := false,
    email_subject := patA, email_sender := patA,
    filename_pattern := patA, archive_folder := none }

/-- Sample mailbox: uid 2 is the most recent message (`mailSkip`), uid 1 the
older matching one (`mailGood`). -/
def mboxBase : Mailbox :=
  { folders := [], uids := [1, 2],
    fetch := fun u => if u = 2 then mailSkip else mailGood }

theorem scan_no_match_policy_witness :
    (get_attachments cfgBase mboxBase).err = none ∧
    (get_attachments cfgBase mboxBase).pairs ≠ [] :=
  ⟨by decide, (scan_no_match_policy cfgBase mboxBase).1 (by decide)⟩

/-- C4 (code bug): with `match_date_received` enabled the scan crashes with
`AttributeError` before fetching a single message — line 130 binds `uids` to
the raw search-response tuple (the `[1][0].split()` of line 132 is missing)
and a tuple has no `reverse` — so the candidate set is never restricted to
the messages received on (reference date − 1 day), contrary to the claim and
to the function's own docstring. -/
theorem match_date_received_crashes (cfg : Config) (mbox : Mailbox)
    (h : cfg.match_date_received = true) :
    (get_attachments cfg mbox).pairs = [] ∧
    (get_attachments cfg mbox).trace.filter isFetch = [] ∧
    ((cfg.archive_folder = none ∨
        ∃ f, cfg.archive_folder = some f ∧ f ∈ mbox.folders) →
      (get_attachments cfg mbox).err = some ScanErr.attrErr) := by
  cases haf : cfg.archive_folder with
  | none =>
    rw [get_attachments_no_folder cfg mbox haf, scanBody_date cfg mbox h]
    exact ⟨rfl, rfl, fun _ => rfl⟩
  | some f =>
    by_cases hmem : f ∈ mbox.folders
    · rw [get_attachments_folder_exists cfg mbox f haf hmem,
        scanBody_date cfg mbox h]
      exact ⟨rfl, rfl, fun _ => rfl⟩
    · rw [get_attachments_folder_missing cfg mbox f haf hmem]
      refine ⟨rfl, rfl, ?_⟩
      rintro (hnone | ⟨f2, hf2, hmem2⟩)
      · exact Option.noConfusion hnone
      · have hf3 : f = f2 := Option.some.inj hf2
        rw [← hf3] at hmem2
        exact absurd hmem2 hmem

/-- Sample configuration with the date restriction enabled. -/
def cfgDate : Config :=
  { cfgBase with match_date_received := true }

theorem match_date_received_crashes_witness :
    cfgDate.match_date_received = true ∧
    (get_attachments cfgDate mboxBase).pairs = [] ∧
    (get_attachments cfgDate mboxBase).err = some ScanErr.attrErr :=
  ⟨rfl, (match_date_received_crashes cfgDate mboxBase rfl).1,
    (match_date_received_crashes cfgDate mboxBase rfl).2.2 (Or.inl rfl)⟩

/-- C6: with an archive folder configured but absent, the run fails up
front: the only operation performed is the read-only existence probe — no
attachment is fetched or uploaded, the batch stays empty — and the run
terminates with the protocol error and exit status 1. -/
theorem archive_folder_missing_fails_early (cfg : Config) (mbox : Mailbox)
    (outcomes : Nat → Bool) (f : Str)
    (hf : cfg.archive_folder = some f) (habs : f ∉ mbox.folders) :
    (run cfg mbox outcomes).err = some (RunErr.scan (ScanErr.protocol f)) ∧
    (run cfg mbox outcomes).trace = [Event.select (some f) true] ∧
    (run cfg mbox outcomes).trace.filter isFetch = [] ∧
    (run cfg mbox outcomes).trace.filter isUpload = [] ∧
    (run cfg mbox outcomes).batch = [] ∧
    mainExitCode cfg mbox outcomes = 1 := by
  have hr : run cfg mbox outcomes =
      { trace := [Event.select (some f) true], batch := [],
        err := some (RunErr.scan (ScanErr.protocol f)) } := by
    unfold run
    rw [get_attachments_folder_missing cfg mbox f hf habs]
    rfl
  have hm : mainExitCode cfg mbox outcomes = 1 := by
    unfold mainExitCode
    rw [hr]
    rfl
  rw [hr]
  exact ⟨rfl, rfl, rfl, rfl, rfl, hm⟩

/-- Sample configuration asking for an archive folder that `mboxBase` does
not have. -/
def cfgArch : Config :=
  { cfgBase with archive_folder := some ['f'] }

theorem archive_folder_missing_witness :
    cfgArch.archive_folder = some ['f'] ∧ ['f'] ∉ mboxBase.folders ∧
    (run cfgArch mboxBase (fun _ => true)).err =
      some (RunErr.scan (ScanErr.protocol ['f'])) ∧
    (run cfgArch mboxBase (fun _ => true)).trace =
      [Event.select (some ['f']) true] :=
  ⟨rfl, by decide,
    (archive_folder_missing_fails_early cfgArch mboxBase (fun _ => true) ['f']
      rfl (by decide)).1,
    (archive_folder_missing_fails_early cfgArch mboxBase (fun _ => true) ['f']
      rfl (by decide)).2.1⟩

/-! ### The fetch-one cutoff (claim C2) -/

lemma filter_isFetch_map (l : List Nat) :
    (l.map Event.fetchOp).filter isFetch = l.map Event.fetchOp := by
  induction l with
  | nil => rfl
  | cons x xs ih => simp [List.filter_cons, isFetch, ih]

lemma scanLoop_fetch_one (cfg : Config) (fetch : Nat → Mail)
    (hone : cfg.fetch_one = true) :
    ∀ uids : List Nat,
      (scanLoop cfg fetch uids false).pairs ≠ [] →
      ∃ k, ∃ hk : k < uids.length,
        (∀ q ∈ (scanLoop cfg fetch uids false).pairs, q.1 = uids.get ⟨k, hk⟩) ∧
        qualifying cfg (fetch (uids.get ⟨k, hk⟩)) = true ∧
        (∀ j, ∀ hj : j < uids.length, j < k →
          qualifying cfg (fetch (uids.get ⟨j, hj⟩)) = false) ∧
        (scanLoop cfg fetch uids false).trace =
          (uids.take (k + 1)).map Event.fetchOp := by
  intro uids
  induction uids with
  | nil =>
    intro hne
    exact absurd rfl hne
  | cons uid rest ih =>
    intro hne
    cases hmm : messageMatches cfg (fetch uid) with
    | error er =>
      rw [scanLoop_cons_error cfg fetch uid rest false er hmm] at hne
      exact absurd rfl hne
    | ok b =>
      cases b with
      | false =>
        rw [scanLoop_cons_skip cfg fetch uid rest false hmm] at hne ⊢
        have hne2 : (scanLoop cfg fetch rest false).pairs ≠ [] := hne
        obtain ⟨k, hk, h1, h2, h3, h4⟩ := ih hne2
        refine ⟨k + 1, by simpa using Nat.succ_lt_succ hk, ?_, ?_, ?_, ?_⟩
        · intro q hq
          simpa [List.get_eq_getElem] using h1 q hq
        · simpa [List.get_eq_getElem] using h2
        · intro j hj hjk
          cases j with
          | zero =>
            simpa [List.get_eq_getElem] using
              qualifying_false_of_ok_false cfg (fetch uid) hmm
          | succ j2 =>
            have hj2 : j2 < rest.length := by
              simp at hj
              omega
            simpa [List.get_eq_getElem] using h3 j2 hj2 (by omega)
        · show Event.fetchOp uid :: (scanLoop cfg fetch rest false).trace = _
          rw [List.take_succ_cons, List.map_cons, h4]
      | true =>
        cases ha : (scanAtts cfg.filename_pattern uid (fetch uid).attachments).2 with
        | some er =>
          rw [scanLoop_cons_attErr cfg fetch uid rest false er hmm ha] at hne ⊢
          have hne2 : (scanAtts cfg.filename_pattern uid
              (fetch uid).attachments).1 ≠ [] := hne
          obtain ⟨q, hq⟩ := List.exists_mem_of_ne_nil _ hne2
          refine ⟨0, by simp, ?_, ?_, ?_, ?_⟩
          · intro q2 hq2
            simpa [List.get_eq_getElem] using
              (scanAtts_pair_mem cfg.filename_pattern uid
                (fetch uid).attachments q2 hq2).1
          · simpa [List.get_eq_getElem] using
              qualifying_of_yield cfg uid (fetch uid) hmm q hq
          · intro j hj hjk
            exact absurd hjk (Nat.not_lt_zero j)
          · show [Event.fetchOp uid] = _
            simp
        | none =>
          cases hl : (scanAtts cfg.filename_pattern uid (fetch uid).attachments).1 with
          | nil =>
            have hc : (cfg.fetch_one && (false ||
                !(scanAtts cfg.filename_pattern uid
                  (fetch uid).attachments).1.isEmpty)) = false := by
              rw [hl]
              simp
            rw [scanLoop_cons_go cfg fetch uid rest false hmm ha hc] at hne ⊢
            rw [hl] at hne ⊢
            simp only [List.isEmpty_nil, Bool.not_true, Bool.or_false,
              List.nil_append] at hne ⊢
            have hne2 : (scanLoop cfg fetch rest false).pairs ≠ [] := hne
            obtain ⟨k, hk, h1, h2, h3, h4⟩ := ih hne2
            refine ⟨k + 1, by simpa using Nat.succ_lt_succ hk, ?_, ?_, ?_, ?_⟩
            · intro q hq
              simpa [List.get_eq_getElem] using h1 q hq
            · simpa [List.get_eq_getElem] using h2
            · intro j hj hjk
              cases j with
              | zero =>
                simpa [List.get_eq_getElem] using
                  qualifying_false_of_no_yield cfg uid (fetch uid) hmm ha hl
              | succ j2 =>
                have hj2 : j2 < rest.length := by
                  simp at hj
                  omega
                simpa [List.get_eq_getElem] using h3 j2 hj2 (by omega)
            · show Event.fetchOp uid :: (scanLoop cfg fetch rest false).trace = _
              rw [List.take_succ_cons, List.map_cons, h4]
          | cons q qs =>
            have hc : (cfg.fetch_one && (false ||
                !(scanAtts cfg.filename_pattern uid
                  (fetch uid).attachments).1.isEmpty)) = true := by
              rw [hone, hl]
              simp
            rw [scanLoop_cons_cut cfg fetch uid rest false hmm ha hc] at hne ⊢
            have hq : q ∈ (scanAtts cfg.filename_pattern uid
                (fetch uid).attachments).1 := by
              rw [hl]
              exact List.mem_cons_self q qs
            refine ⟨0, by simp, ?_, ?_, ?_, ?_⟩
            · intro q2 hq2
              simpa [List.get_eq_getElem] using
                (scanAtts_pair_mem cfg.filename_pattern uid
                  (fetch uid).attachments q2 hq2).1
            · simpa [List.get_eq_getElem] using
                qualifying_of_yield cfg uid (fetch uid) hmm q hq
            · intro j hj hjk
              exact absurd hjk (Nat.not_lt_zero j)
            · show [Event.fetchOp uid] = _
              simp

lemma fetch_one_core (cfg : Config) (mbox : Mailbox)
    (hone : cfg.fetch_one = true)
    (pre : List Event) (hpre : ∀ e ∈ pre, isFetch e = false) :
    (∀ p ∈ (scanLoop cfg mbox.fetch mbox.uids.reverse false).pairs,
      ∀ q ∈ (scanLoop cfg mbox.fetch mbox.uids.reverse false).pairs,
        p.1 = q.1) ∧
    ((scanLoop cfg mbox.fetch mbox.uids.reverse false).pairs ≠ [] →
      ∃ k, ∃ hk : k < mbox.uids.reverse.length,
        (∀ p ∈ (scanLoop cfg mbox.fetch mbox.uids.reverse false).pairs,
          p.1 = mbox.uids.reverse.get ⟨k, hk⟩) ∧
        qualifying cfg (mbox.fetch (mbox.uids.reverse.get ⟨k, hk⟩)) = true ∧
        (∀ j, ∀ hj : j < mbox.uids.reverse.length, j < k →
          qualifying cfg (mbox.fetch (mbox.uids.reverse.get ⟨j, hj⟩)) = false) ∧
        (pre ++ (scanLoop cfg mbox.fetch mbox.uids.reverse false).trace).filter
            isFetch =
          (mbox.uids.reverse.take (k + 1)).map Event.fetchOp) := by
  by_cases hp0 : (scanLoop cfg mbox.fetch mbox.uids.reverse false).pairs = []
  · constructor
    · intro p hp
      rw [hp0] at hp
      simp at hp
    · intro hne
      exact absurd hp0 hne
  · obtain ⟨k, hk, h1, h2, h3, h4⟩ :=
      scanLoop_fetch_one cfg mbox.fetch hone mbox.uids.reverse hp0
    constructor
    · intro p hp q hq
      rw [h1 p hp, h1 q hq]
    · intro _
      refine ⟨k, hk, h1, h2, h3, ?_⟩
      rw [List.filter_append, h4, filter_isFetch_map]
      have hnil : pre.filter isFetch = [] := by
        rw [List.filter_eq_nil_iff]
        intro e he
        rw [hpre e he]
        exact Bool.false_ne_true
      rw [hnil, List.nil_append]

/-- C2: with the cutoff flag (`fetch_one`) set, all yielded pairs carry a
single message identifier; when at least one pair is yielded, that identifier
sits at a position `k` of the scan order (the reversed uid listing), the
message there has a qualifying attachment, every more recent candidate (at a
position before `k`) has none, and the scan fetches exactly the candidates up
to and including position `k` — it does not continue to older messages after
finishing that message's attachments. -/
theorem fetch_one_single_message (cfg : Config) (mbox : Mailbox)
    (hone : cfg.fetch_one = true) :
    (∀ p ∈ (get_attachments cfg mbox).pairs,
      ∀ q ∈ (get_attachments cfg mbox).pairs, p.1 = q.1) ∧
    ((get_attachments cfg mbox).pairs ≠ [] →
      ∃ k, ∃ hk : k < mbox.uids.reverse.length,
        (∀ p ∈ (get_attachments cfg mbox).pairs,
          p.1 = mbox.uids.reverse.get ⟨k, hk⟩) ∧
        qualifying cfg (mbox.fetch (mbox.uids.reverse.get ⟨k, hk⟩)) = true ∧
        (∀ j, ∀ hj : j < mbox.uids.reverse.length, j < k →
          qualifying cfg (mbox.fetch (mbox.uids.reverse.get ⟨j, hj⟩)) = false) ∧
        (get_attachments cfg mbox).trace.filter isFetch =
          (mbox.uids.reverse.take (k + 1)).map Event.fetchOp) := by
  cases haf : cfg.archive_folder with
  | none =>
    rw [get_attachments_no_folder cfg mbox haf]
    cases hmd : cfg.match_date_received with
    | true =>
      rw [scanBody_date cfg mbox hmd]
      constructor
      · intro p hp
        have hp2 : p ∈ ([] : List (Nat × Attachment)) := hp
        simp at hp2
      · intro hne
        exact absurd rfl hne
    | false =>
      rw [scanBody_all cfg mbox hmd]
      exact fetch_one_core cfg mbox hone
        [Event.select none true, Event.searchOp]
        (by intro e he; fin_cases he <;> rfl)
  | some f =>
    by_cases hmem : f ∈ mbox.folders
    · rw [get_attachments_folder_exists cfg mbox f haf hmem]
      cases hmd : cfg.match_date_received with
      | true =>
        rw [scanBody_date cfg mbox hmd]
        constructor
        · intro p hp
          have hp2 : p ∈ ([] : List (Nat × Attachment)) := hp
          simp at hp2
        · intro hne
          exact absurd rfl hne
      | false =>
        rw [scanBody_all cfg mbox hmd]
        exact fetch_one_core cfg mbox hone
          [Event.select (some f) true, Event.select none true, Event.searchOp]
          (by intro e he; fin_cases he <;> rfl)
    · rw [get_attachments_folder_missing cfg mbox f haf hmem]
      constructor
      · intro p hp
        have hp2 : p ∈ ([] : List (Nat × Attachment)) := hp
        simp at hp2
      · intro hne
        exact absurd rfl hne

/-- Sample configuration with the cutoff flag enabled. -/
def cfgOne : Config :=
  { cfgBase with fetch_one := true }

theorem fetch_one_single_message_witness :
    cfgOne.fetch_one = true ∧
    (∀ p ∈ (get_attachments cfgOne mboxBase).pairs,
      ∀ q ∈ (get_attachments cfgOne mboxBase).pairs, p.1 = q.1) :=
  ⟨rfl, (fetch_one_single_message cfgOne mboxBase rfl).1⟩

/-! ### Trace classification (claims C7 and C9) -/

lemma scanLoop_trace_fetch (cfg : Config) (fetch : Nat → Mail) :
    ∀ (uids : List Nat) (found : Bool),
      ∀ e ∈ (scanLoop cfg fetch uids found).trace, ∃ u, e = Event.fetchOp u := by
  intro uids
  induction uids with
  | nil =>
    intro found e he
    have he2 : e ∈ ([] : List Event) := he
    simp at he2
  | cons uid rest ih =>
    intro found e he
    cases hmm : messageMatches cfg (fetch uid) with
    | error er =>
      rw [scanLoop_cons_error cfg fetch uid rest found er hmm] at he
      have he2 : e ∈ [Event.fetchOp uid] := he
      rw [List.mem_singleton] at he2
      exact ⟨uid, he2⟩
    | ok b =>
      cases b with
      | false =>
        rw [scanLoop_cons_skip cfg fetch uid rest found hmm] at he
        have he2 : e ∈ Event.fetchOp uid ::
          (scanLoop cfg fetch rest found).trace := he
        rcases List.mem_cons.mp he2 with rfl | he3
        · exact ⟨uid, rfl⟩
        · exact ih found e he3
      | true =>
        cases ha : (scanAtts cfg.filename_pattern uid (fetch uid).attachments).2 with
        | some er =>
          rw [scanLoop_cons_attErr cfg fetch uid rest found er hmm ha] at he
          have he2 : e ∈ [Event.fetchOp uid] := he
          rw [List.mem_singleton] at he2
          exact ⟨uid, he2⟩
        | none =>
          cases hc : (cfg.fetch_one && (found ||
              !(scanAtts cfg.filename_pattern uid (fetch uid).attachments).1.isEmpty)) with
          | true =>
            rw [scanLoop_cons_cut cfg fetch uid rest found hmm ha hc] at he
            have he2 : e ∈ [Event.fetchOp uid] := he
            rw [List.mem_singleton] at he2
            exact ⟨uid, he2⟩
          | false =>
            rw [scanLoop_cons_go cfg fetch uid rest found hmm ha hc] at he
            have he2 : e ∈ Event.fetchOp uid :: (scanLoop cfg fetch rest (found ||
              !(scanAtts cfg.filename_pattern uid
                (fetch uid).attachments).1.isEmpty)).trace := he
            rcases List.mem_cons.mp he2 with rfl | he3
            · exact ⟨uid, rfl⟩
            · exact ih _ e he3

lemma scan_trace_events (cfg : Config) (mbox : Mailbox) :
    ∀ e ∈ (get_attachments cfg mbox).trace,
      (∃ f, e = Event.select f true) ∨ e = Event.searchOp ∨
        ∃ u, e = Event.fetchOp u := by
  intro e he
  have hbody : ∀ e2 ∈ (scanBody cfg mbox).trace,
      (∃ f, e2 = Event.select f true) ∨ e2 = Event.searchOp ∨
        ∃ u, e2 = Event.fetchOp u := by
    intro e2 he2
    cases hmd : cfg.match_date_received with
    | true =>
      rw [scanBody_date cfg mbox hmd] at he2
      have he3 : e2 ∈ [Event.select none true, Event.searchOp] := he2
      rcases List.mem_cons.mp he3 with rfl | he4
      · exact Or.inl ⟨none, rfl⟩
      · rw [List.mem_singleton] at he4
        exact Or.inr (Or.inl he4)
    | false =>
      rw [scanBody_all cfg mbox hmd] at he2
      have he3 : e2 ∈ Event.select none true :: Event.searchOp ::
          (scanLoop cfg mbox.fetch mbox.uids.reverse false).trace := he2
      rcases List.mem_cons.mp he3 with rfl | he4
      · exact Or.inl ⟨none, rfl⟩
      · rcases List.mem_cons.mp he4 with rfl | he5
        · exact Or.inr (Or.inl rfl)
        · exact Or.inr (Or.inr
            (scanLoop_trace_fetch cfg mbox.fetch mbox.uids.reverse false e2 he5))
  cases haf : cfg.archive_folder with
  | none =>
    rw [get_attachments_no_folder cfg mbox haf] at he
    exact hbody e he
  | some f =>
    by_cases hmem : f ∈ mbox.folders
    · rw [get_attachments_folder_exists cfg mbox f haf hmem] at he
      have he2 : e ∈ Event.select (some f) true :: (scanBody cfg mbox).trace := he
      rcases List.mem_cons.mp he2 with rfl | he3
      · exact Or.inl ⟨some f, rfl⟩
      · exact hbody e he3
    · rw [get_attachments_folder_missing cfg mbox f haf hmem] at he
      have he2 : e ∈ [Event.select (some f) true] := he
      rw [List.mem_singleton] at he2
      subst he2
      exact Or.inl ⟨some f, rfl⟩

lemma runUploads_trace_uploads (outcomes : Nat → Bool) :
    ∀ (ps : List (Nat × Attachment)) (base : Nat) (acc : List Nat),
      ∀ e ∈ (runUploads outcomes ps base acc).trace,
        ∃ u, e = Event.uploadOp u := by
  intro ps
  induction ps with
  | nil =>
    intro base acc e he
    have he2 : e ∈ ([] : List Event) := he
    simp at he2
  | cons p rest ih =>
    intro base acc e he
    obtain ⟨uid, att⟩ := p
    by_cases hb : outcomes base = true
    · have he2 : e ∈ Event.uploadOp uid ::
          (runUploads outcomes rest (base + 1) (setAdd acc uid)).trace := by
        simpa only [runUploads, hb, if_true] using he
      rcases List.mem_cons.mp he2 with rfl | he3
      · exact ⟨uid, rfl⟩
      · exact ih (base + 1) (setAdd acc uid) e he3
    · have hb2 : outcomes base = false := by
        cases h2 : outcomes base
        · rfl
        · exact absurd h2 hb
      have he2 : e ∈ [Event.uploadOp uid] := by
        simpa only [runUploads, hb2, Bool.false_eq_true, if_false] using he
      rw [List.mem_singleton] at he2
      exact ⟨uid, he2⟩

lemma runUploads_abort (outcomes : Nat → Bool) :
    ∀ (ps : List (Nat × Attachment)) (base : Nat) (acc : List Nat) (i : Nat),
      i < ps.length → outcomes (base + i) = false →
      (∀ j, j < i → outcomes (base + j) = true) →
      (runUploads outcomes ps base acc).ok = false ∧
      (runUploads outcomes ps base acc).trace.length = i + 1 ∧
      (∀ u, u ∈ (runUploads outcomes ps base acc).batch ↔
        u ∈ acc ∨ u ∈ (ps.take i).map Prod.fst) := by
  intro ps
  induction ps with
  | nil =>
    intro base acc i hi
    simp at hi
  | cons p rest ih =>
    intro base acc i hi hfail hpre
    obtain ⟨uid, att⟩ := p
    cases i with
    | zero =>
      rw [Nat.add_zero] at hfail
      refine ⟨?_, ?_, ?_⟩
      · simp [runUploads, hfail]
      · simp [runUploads, hfail]
      · intro u
        simp [runUploads, hfail]
    | succ i2 =>
      have hb : outcomes base = true := by
        have h0 := hpre 0 (Nat.succ_pos i2)
        rwa [Nat.add_zero] at h0
      have hfail2 : outcomes (base + 1 + i2) = false := by
        have heq : base + 1 + i2 = base + (i2 + 1) := by omega
        rw [heq]
        exact hfail
      have hpre2 : ∀ j, j < i2 → outcomes (base + 1 + j) = true := by
        intro j hj
        have heq : base + 1 + j = base + (j + 1) := by omega
        rw [heq]
        exact hpre (j + 1) (by omega)
      have hi2 : i2 < rest.length := by
        simp at hi
        omega
      obtain ⟨hok, hlen, hbatch⟩ :=
        ih (base + 1) (setAdd acc uid) i2 hi2 hfail2 hpre2
      refine ⟨?_, ?_, ?_⟩
      · simpa only [runUploads, hb, if_true] using hok
      · have htr : (runUploads outcomes ((uid, att) :: rest) base acc).trace =
            Event.uploadOp uid ::
              (runUploads outcomes rest (base + 1) (setAdd acc uid)).trace := by
          simp only [runUploads, hb, if_true]
        rw [htr, List.length_cons, hlen]
      · intro u
        have hba : (runUploads outcomes ((uid, att) :: rest) base acc).batch =
            (runUploads outcomes rest (base + 1) (setAdd acc uid)).batch := by
          simp only [runUploads, hb, if_true]
        rw [hba, hbatch u, setAdd_mem, List.take_succ_cons, List.map_cons]
        constructor
        · rintro ((h | rfl) | h)
          · exact Or.inl h
          · exact Or.inr (List.mem_cons_self _ _)
          · exact Or.inr (List.mem_cons_of_mem _ h)
        · rintro (h | h)
          · exact Or.inl (Or.inl h)
          · rcases List.mem_cons.mp h with rfl | h2
            · exact Or.inl (Or.inr rfl)
            · exact Or.inr h2

/-- C7: if the upload at position `i` fails (all earlier ones having
succeeded), the run aborts immediately — exactly `i + 1` upload attempts are
made, so no further pair is consumed — the already-completed uploads are kept
(the batch holds exactly the uids of the first `i` pairs), the process
terminates with a non-zero exit status, and no copy, mark-deleted or purge
operation is ever issued against the mailbox. -/
theorem upload_failure_aborts_run (cfg : Config) (mbox : Mailbox)
    (outcomes : Nat → Bool) (i : Nat)
    (hi : i < (get_attachments cfg mbox).pairs.length)
    (hfail : outcomes i = false)
    (hpre : ∀ j, j < i → outcomes j = true) :
    (run cfg mbox outcomes).err = some RunErr.uploadFailed ∧
    mainExitCode cfg mbox outcomes = 1 ∧
    ((run cfg mbox outcomes).trace.filter isUpload).length = i + 1 ∧
    (∀ u, u ∈ (run cfg mbox outcomes).batch ↔
      u ∈ ((get_attachments cfg mbox).pairs.take i).map Prod.fst) ∧
    (∀ e ∈ (run cfg mbox outcomes).trace, isArchiveOp e = false) := by
  have hfail0 : outcomes (0 + i) = false := by rwa [Nat.zero_add]
  have hpre0 : ∀ j, j < i → outcomes (0 + j) = true := by
    intro j hj
    rw [Nat.zero_add]
    exact hpre j hj
  obtain ⟨hok, hlen, hbatch⟩ :=
    runUploads_abort outcomes (get_attachments cfg mbox).pairs 0 [] i hi hfail0 hpre0
  have herr : (run cfg mbox outcomes).err = some RunErr.uploadFailed := by
    show runErrOf (get_attachments cfg mbox).err
      (runUploads outcomes (get_attachments cfg mbox).pairs 0 []).ok =
      some RunErr.uploadFailed
    rw [hok]
    rfl
  have hcond : ((runUploads outcomes (get_attachments cfg mbox).pairs 0 []).ok &&
      (get_attachments cfg mbox).err.isNone && cfg.archive_folder.isSome) = false := by
    rw [hok]
    rfl
  have htr : (run cfg mbox outcomes).trace =
      (get_attachments cfg mbox).trace ++
        (runUploads outcomes (get_attachments cfg mbox).pairs 0 []).trace := by
    show (get_attachments cfg mbox).trace ++
      (runUploads outcomes (get_attachments cfg mbox).pairs 0 []).trace ++
      (if ((runUploads outcomes (get_attachments cfg mbox).pairs 0 []).ok &&
          (get_attachments cfg mbox).err.isNone && cfg.archive_folder.isSome) = true
        then archive_uids (runUploads outcomes (get_attachments cfg mbox).pairs 0 []).batch
        else []) = _
    rw [hcond]
    simp
  have hfs : (get_attachments cfg mbox).trace.filter isUpload = [] := by
    rw [List.filter_eq_nil_iff]
    intro e he
    rcases scan_trace_events cfg mbox e he with ⟨f, rfl⟩ | rfl | ⟨u2, rfl⟩ <;>
      simp [isUpload]
  have hfu : (runUploads outcomes (get_attachments cfg mbox).pairs 0 []).trace.filter
      isUpload =
      (runUploads outcomes (get_attachments cfg mbox).pairs 0 []).trace := by
    rw [List.filter_eq_self]
    intro e he
    rcases runUploads_trace_uploads outcomes (get_attachments cfg mbox).pairs 0 [] e he
      with ⟨u2, rfl⟩
    rfl
  refine ⟨herr, ?_, ?_, ?_, ?_⟩
  · unfold mainExitCode
    rw [herr]
    rfl
  · rw [htr, List.filter_append, hfs, List.nil_append, hfu, hlen]
  · intro u
    have hbb : (run cfg mbox outcomes).batch =
        (runUploads outcomes (get_attachments cfg mbox).pairs 0 []).batch := rfl
    rw [hbb, hbatch u]
    simp
  · intro e he
    rw [htr] at he
    rcases List.mem_append.mp he with h1 | h2
    · rcases scan_trace_events cfg mbox e h1 with ⟨f, rfl⟩ | rfl | ⟨u2, rfl⟩ <;> rfl
    · rcases runUploads_trace_uploads outcomes (get_attachments cfg mbox).pairs 0 []
        e h2 with ⟨u2, rfl⟩
      rfl

theorem upload_failure_aborts_run_witness :
    0 < (get_attachments cfgBase mboxBase).pairs.length ∧
    (run cfgBase mboxBase (fun _ => false)).err = some RunErr.uploadFailed ∧
    (∀ e ∈ (run cfgBase mboxBase (fun _ => false)).trace, isArchiveOp e = false) :=
  ⟨by decide,
    (upload_failure_aborts_run cfgBase mboxBase (fun _ => false) 0 (by decide) rfl
      (fun j hj => absurd hj (Nat.not_lt_zero j))).1,
    (upload_failure_aborts_run cfgBase mboxBase (fun _ => false) 0 (by decide) rfl
      (fun j hj => absurd hj (Nat.not_lt_zero j))).2.2.2.2⟩

/-- C9: the run's operation trace splits into a scan/upload phase in which
every operation is mailbox-safe — in particular every folder selection
(including the archive-folder existence probe and the inbox selection)
passes the read-only flag, and no copy, mark-deleted or purge occurs — and
an optional archival phase which is exactly `archive_uids` of the batch and
whose first step, the non-readonly re-selection of the inbox, is the only
point where the session leaves read-only mode. -/
theorem readonly_until_archival (cfg : Config) (mbox : Mailbox)
    (outcomes : Nat → Bool) :
    ∃ t1 t2, (run cfg mbox outcomes).trace = t1 ++ t2 ∧
      (∀ e ∈ t1, isReadonlySafe e = true) ∧
      (t2 = [] ∨ (cfg.archive_folder.isSome = true ∧
        t2 = archive_uids (run cfg mbox outcomes).batch ∧
        ∃ rest2, t2 = Event.select none false :: rest2)) := by
  refine ⟨(get_attachments cfg mbox).trace ++
      (runUploads outcomes (get_attachments cfg mbox).pairs 0 []).trace,
    (if ((runUploads outcomes (get_attachments cfg mbox).pairs 0 []).ok &&
        (get_attachments cfg mbox).err.isNone && cfg.archive_folder.isSome) = true
      then archive_uids (runUploads outcomes (get_attachments cfg mbox).pairs 0 []).batch
      else []), ?_, ?_, ?_⟩
  · rfl
  · intro e he
    rcases List.mem_append.mp he with h1 | h2
    · rcases scan_trace_events cfg mbox e h1 with ⟨f, rfl⟩ | rfl | ⟨u2, rfl⟩ <;> rfl
    · rcases runUploads_trace_uploads outcomes (get_attachments cfg mbox).pairs 0 []
        e h2 with ⟨u2, rfl⟩
      rfl
  · by_cases hcond : ((runUploads outcomes (get_attachments cfg mbox).pairs 0 []).ok &&
        (get_attachments cfg mbox).err.isNone && cfg.archive_folder.isSome) = true
    · right
      refine ⟨(Bool.and_eq_true .. |>.mp hcond).2, ?_, ?_⟩
      · rw [if_pos hcond]
        rfl
      · rw [if_pos hcond]
        exact ⟨((runUploads outcomes (get_attachments cfg mbox).pairs 0 []).batch.flatMap
            fun u => [Event.copyOp u, Event.storeOp u]) ++ [Event.expungeOp], rfl⟩
    · left
      rw [if_neg hcond]

/-! ### Missing-header behaviour (claim C10) -/

/-- C10 counterexample: uid 2's message has no `From` header and is a scanned
candidate (it is fetched), yet the scan terminates without any exception and
even yields a pair — the message is treated as non-matching because the
subject match fails first and Python's `and` short-circuits, so the absent
`From` header is never touched. -/
theorem missing_sender_not_raising_counterexample :
    (mboxBase.fetch 2).sender = none ∧
    Event.fetchOp 2 ∈ (get_attachments cfgBase mboxBase).trace ∧
    (get_attachments cfgBase mboxBase).err = none ∧
    (get_attachments cfgBase mboxBase).pairs ≠ [] := by
  refine ⟨rfl, ?_, ?_, ?_⟩ <;> decide

/-- C10 (amended): a candidate message with absent `Subject` makes the scan
raise `TypeError` and abort the run; a candidate whose subject is present and
matches the subject pattern but whose `From` header is absent likewise
raises; a candidate whose subject is present and does not match the subject
pattern is skipped without the `From` header being consulted (even when it is
absent); and within a subject+sender-matching message, an attachment with no
`Content-Description` raises `TypeError` and aborts the scan. -/
theorem missing_header_behaviour (cfg : Config) (fetch : Nat → Mail)
    (uid : Nat) (rest : List Nat) (found : Bool) :
    ((fetch uid).subject = none →
      scanLoop cfg fetch (uid :: rest) found =
        { trace := [Event.fetchOp uid], pairs := [],
          err := some ScanErr.typeErr }) ∧
    (∀ s, (fetch uid).subject = some s → reMatch cfg.email_subject s = true →
      (fetch uid).sender = none →
      scanLoop cfg fetch (uid :: rest) found =
        { trace := [Event.fetchOp uid], pairs := [],
          err := some ScanErr.typeErr }) ∧
    (∀ s, (fetch uid).subject = some s → reMatch cfg.email_subject s = false →
      scanLoop cfg fetch (uid :: rest) found =
        { trace := Event.fetchOp uid :: (scanLoop cfg fetch rest found).trace,
          pairs := (scanLoop cfg fetch rest found).pairs,
          err := (scanLoop cfg fetch rest found).err }) ∧
    (messageMatches cfg (fetch uid) = Except.ok true →
      (∃ a ∈ (fetch uid).attachments, a.contentDescription = none) →
      (scanLoop cfg fetch (uid :: rest) found).err = some ScanErr.typeErr) := by
  refine ⟨?_, ?_, ?_, ?_⟩
  · intro hs
    have hmm : messageMatches cfg (fetch uid) = Except.error ScanErr.typeErr := by
      simp [messageMatches, hs]
    exact scanLoop_cons_error cfg fetch uid rest found _ hmm
  · intro s hs hm hf
    have hmm : messageMatches cfg (fetch uid) = Except.error ScanErr.typeErr := by
      simp [messageMatches, hs, hm, hf]
    exact scanLoop_cons_error cfg fetch uid rest found _ hmm
  · intro s hs hm
    have hmm : messageMatches cfg (fetch uid) = Except.ok false := by
      simp [messageMatches, hs, hm]
    exact scanLoop_cons_skip cfg fetch uid rest found hmm
  · intro hmm hex
    have ha : (scanAtts cfg.filename_pattern uid (fetch uid).attachments).2 =
        some ScanErr.typeErr :=
      (scanAtts_err_some_iff cfg.filename_pattern uid (fetch uid).attachments).mpr hex
    rw [scanLoop_cons_attErr cfg fetch uid rest found _ hmm ha]

/-- Sample message with no `Subject` header. -/
def mailNoSubject : Mail :=
  { subject := none, sender := some ['a'], attachments := [] }

theorem missing_header_behaviour_witness :
    ((fun _ : Nat => mailNoSubject) 5).subject = none ∧
    scanLoop cfgBase (fun _ => mailNoSubject) (5 :: []) false =
      { trace := [Event.fetchOp 5], pairs := [], err := some ScanErr.typeErr } :=
  ⟨rfl,
    (missing_header_behaviour cfgBase (fun _ => mailNoSubject) 5 [] false).1 rfl⟩

/-! ### Placeholder substitution (claim C8) -/

lemma replaceAll_nil (pat rep : Str) : replaceAll pat rep [] = [] := by
  rw [replaceAll]

lemma replaceAll_cons_pos (pat rep : Str) (c : Char) (rest : Str)
    (h1 : pat ≠ []) (h2 : pat <+: (c :: rest)) :
    replaceAll pat rep (c :: rest) =
      rep ++ replaceAll pat rep ((c :: rest).drop pat.length) := by
  rw [replaceAll]
  rw [dif_pos ⟨h1, h2⟩]

lemma replaceAll_cons_neg (pat rep : Str) (c : Char) (rest : Str)
    (h : ¬(pat ≠ [] ∧ pat <+: (c :: rest))) :
    replaceAll pat rep (c :: rest) = c :: replaceAll pat rep rest := by
  rw [replaceAll]
  rw [dif_neg h]

lemma infix_of_prefix2 (q l : Str) (h : q <+: l) : q <:+: l := by
  obtain ⟨r, hr⟩ := h
  exact ⟨[], r, by simpa using hr⟩

lemma infix_of_infix_drop (q l : Str) (n : Nat) (h : q <:+: l.drop n) :
    q <:+: l := by
  obtain ⟨s, t, hst⟩ := h
  refine ⟨l.take n ++ s, t, ?_⟩
  have hw : l.take n ++ (s ++ q ++ t) = l := by
    rw [hst]
    exact List.take_append_drop n l
  calc l.take n ++ s ++ q ++ t
      = l.take n ++ (s ++ q ++ t) := by simp [List.append_assoc]
    _ = l := hw

lemma prefix_of_replaceAll (pat rep : Str) (hrep : rep ≠ []) :
    ∀ (q t : Str), (∀ a ∈ q, a ∉ rep) →
      q <+: replaceAll pat rep t → q <+: t := by
  intro q
  induction q with
  | nil =>
    intro t _ _
    exact List.nil_prefix
  | cons a q2 ih =>
    intro t hq hpre
    cases t with
    | nil =>
      rw [replaceAll_nil] at hpre
      have h0 := List.prefix_nil.mp hpre
      exact absurd h0 (List.cons_ne_nil a q2)
    | cons c t2 =>
      by_cases hc : pat ≠ [] ∧ pat <+: (c :: t2)
      · rw [replaceAll_cons_pos pat rep c t2 hc.1 hc.2] at hpre
        cases rep with
        | nil => exact absurd rfl hrep
        | cons r0 rep2 =>
          rw [List.cons_append] at hpre
          have hh := (List.cons_prefix_cons.mp hpre).1
          have hmem : a ∈ r0 :: rep2 := by
            rw [hh]
            exact List.mem_cons_self r0 rep2
          exact absurd hmem (hq a (List.mem_cons_self a q2))
      · rw [replaceAll_cons_neg pat rep c t2 hc] at hpre
        obtain ⟨hac, hq2⟩ := List.cons_prefix_cons.mp hpre
        have hq2t : q2 <+: t2 :=
          ih t2 (fun x hx => hq x (List.mem_cons_of_mem a hx)) hq2
        rw [hac]
        exact List.cons_prefix_cons.mpr ⟨rfl, hq2t⟩

lemma infix_of_append_of_disjoint (q : Str) (hq : q ≠ []) :
    ∀ (A B : Str), (∀ a ∈ q, a ∉ A) → q <:+: A ++ B → q <:+: B := by
  intro A
  induction A with
  | nil =>
    intro B _ h
    simpa using h
  | cons a A2 ih =>
    intro B hd h
    rw [List.cons_append] at h
    rcases List.infix_cons_iff.mp h with hpre | hinf
    · cases q with
      | nil => exact absurd rfl hq
      | cons b q2 =>
        have hb := (List.cons_prefix_cons.mp hpre).1
        have hmem : b ∈ a :: A2 := by
          rw [hb]
          exact List.mem_cons_self a A2
        exact absurd hmem (hd b (List.mem_cons_self b q2))
    · exact ih B (fun x hx hxa => hd x hx (List.mem_cons_of_mem a hxa)) hinf

lemma infix_of_replaceAll (pat rep q : Str) (hrep : rep ≠ []) (hpat : pat ≠ [])
    (hq : q ≠ []) (hd : ∀ a ∈ q, a ∉ rep) :
    ∀ t, q <:+: replaceAll pat rep t → q <:+: t := by
  have main : ∀ n t, t.length ≤ n → q <:+: replaceAll pat rep t → q <:+: t := by
    intro n
    induction n with
    | zero =>
      intro t ht h
      have ht0 : t = [] := List.length_eq_zero.mp (Nat.le_zero.mp ht)
      subst ht0
      rwa [replaceAll_nil] at h
    | succ n ih =>
      intro t ht h
      cases t with
      | nil => rwa [replaceAll_nil] at h
      | cons c t2 =>
        by_cases hc : pat ≠ [] ∧ pat <+: (c :: t2)
        · rw [replaceAll_cons_pos pat rep c t2 hc.1 hc.2] at h
          have h2 : q <:+: replaceAll pat rep ((c :: t2).drop pat.length) :=
            infix_of_append_of_disjoint q hq rep _ hd h
          have hlen : ((c :: t2).drop pat.length).length ≤ n := by
            rw [List.length_drop]
            have hpl : 0 < pat.length := List.length_pos.mpr hpat
            simp only [List.length_cons] at ht ⊢
            omega
          exact infix_of_infix_drop q (c :: t2) pat.length (ih _ hlen h2)
        · rw [replaceAll_cons_neg pat rep c t2 hc] at h
          rcases List.infix_cons_iff.mp h with hpre | hinf
          · cases q with
            | nil => exact absurd rfl hq
            | cons b q2 =>
              obtain ⟨hb, hq2⟩ := List.cons_prefix_cons.mp hpre
              have hq2t : q2 <+: t2 :=
                prefix_of_replaceAll pat rep hrep q2 t2
                  (fun x hx => hd x (List.mem_cons_of_mem b hx)) hq2
              subst hb
              exact infix_of_prefix2 (b :: q2) (b :: t2)
                (List.cons_prefix_cons.mpr ⟨rfl, hq2t⟩)
          · have hlen : t2.length ≤ n := by
              simp only [List.length_cons] at ht
              omega
            exact List.infix_cons (ih t2 hlen hinf)
  intro t
  exact main t.length t (Nat.le_refl t.length)

lemma replaceAll_not_contains_pat (pat rep : Str) (hrep : rep ≠ [])
    (hpat : pat ≠ []) (hd : ∀ a ∈ rep, a ∉ pat) :
    ∀ t, ¬ pat <:+: replaceAll pat rep t := by
  have hd2 : ∀ a ∈ pat, a ∉ rep := fun a ha hb => hd a hb ha
  have main : ∀ n t, t.length ≤ n → ¬ pat <:+: replaceAll pat rep t := by
    intro n
    induction n with
    | zero =>
      intro t ht h
      have ht0 : t = [] := List.length_eq_zero.mp (Nat.le_zero.mp ht)
      subst ht0
      rw [replaceAll_nil] at h
      obtain ⟨s, t2, hst⟩ := h
      obtain ⟨h1, _⟩ := List.append_eq_nil.mp hst
      obtain ⟨_, h3⟩ := List.append_eq_nil.mp h1
      exact hpat h3
    | succ n ih =>
      intro t ht h
      cases t with
      | nil =>
        rw [replaceAll_nil] at h
        obtain ⟨s, t2, hst⟩ := h
        obtain ⟨h1, _⟩ := List.append_eq_nil.mp hst
        obtain ⟨_, h3⟩ := List.append_eq_nil.mp h1
        exact hpat h3
      | cons c t2 =>
        by_cases hc : pat ≠ [] ∧ pat <+: (c :: t2)
        · rw [replaceAll_cons_pos pat rep c t2 hc.1 hc.2] at h
          have h2 := infix_of_append_of_disjoint pat hpat rep _ hd2 h
          have hlen : ((c :: t2).drop pat.length).length ≤ n := by
            rw [List.length_drop]
            have hpl : 0 < pat.length := List.length_pos.mpr hpat
            simp only [List.length_cons] at ht ⊢
            omega
          exact ih _ hlen h2
        · rw [replaceAll_cons_neg pat rep c t2 hc] at h
          rcases List.infix_cons_iff.mp h with hpre | hinf
          · cases hp : pat with
            | nil => exact hpat hp
            | cons b p2 =>
              subst hp
              obtain ⟨hb, hp2⟩ := List.cons_prefix_cons.mp hpre
              have hp2t : p2 <+: t2 :=
                prefix_of_replaceAll (b :: p2) rep hrep p2 t2
                  (fun x hx => hd2 x (List.mem_cons_of_mem b hx)) hp2
              subst hb
              exact hc ⟨List.cons_ne_nil b p2,
                List.cons_prefix_cons.mpr ⟨rfl, hp2t⟩⟩
          · have hlen : t2.length ≤ n := by
              simp only [List.length_cons] at ht
              omega
            exact ih t2 hlen hinf
  intro t
  exact main t.length t (Nat.le_refl t.length)

lemma replaceAll_eq_self (pat rep : Str) (hpat : pat ≠ []) :
    ∀ t, ¬ pat <:+: t → replaceAll pat rep t = t := by
  intro t
  induction t with
  | nil =>
    intro _
    exact replaceAll_nil pat rep
  | cons c t2 ih =>
    intro h
    have hnp : ¬ pat <+: (c :: t2) := fun hp => h (infix_of_prefix2 pat _ hp)
    rw [replaceAll_cons_neg pat rep c t2 (fun hcc => hnp hcc.2)]
    rw [ih (fun hi => h (List.infix_cons hi))]

lemma digitChar_not_placeholder (n : Nat) :
    digitChar n ≠ 'Y' ∧ digitChar n ≠ 'M' ∧ digitChar n ≠ 'D' := by
  unfold digitChar
  split <;> exact ⟨by decide, by decide, by decide⟩

lemma natDigits_not_placeholder (n : Nat) :
    ∀ c ∈ natDigits n, c ≠ 'Y' ∧ c ≠ 'M' ∧ c ≠ 'D' := by
  induction n using Nat.strong_induction_on with
  | _ n ih =>
    intro c hc
    rw [natDigits] at hc
    by_cases h : n < 10
    · rw [if_pos h] at hc
      rw [List.mem_singleton] at hc
      subst hc
      exact digitChar_not_placeholder n
    · rw [if_neg h] at hc
      rcases List.mem_append.mp hc with h1 | h2
      · exact ih (n / 10) (Nat.div_lt_self (by omega) (by omega)) c h1
      · rw [List.mem_singleton] at h2
        subst h2
        exact digitChar_not_placeholder n

lemma padZeros_not_placeholder (k n : Nat) :
    ∀ c ∈ padZeros k (natDigits n), c ≠ 'Y' ∧ c ≠ 'M' ∧ c ≠ 'D' := by
  intro c hc
  rcases List.mem_append.mp hc with h1 | h2
  · have h0 : c = '0' := List.eq_of_mem_replicate h1
    subst h0
    exact ⟨by decide, by decide, by decide⟩
  · exact natDigits_not_placeholder n c h2

lemma natDigits_ne_nil (n : Nat) : natDigits n ≠ [] := by
  rw [natDigits]
  by_cases h : n < 10
  · rw [if_pos h]
    exact List.cons_ne_nil _ _
  · rw [if_neg h]
    intro hnil
    obtain ⟨_, h2⟩ := List.append_eq_nil.mp hnil
    exact List.cons_ne_nil _ _ h2

lemma padZeros_ne_nil (k n : Nat) : padZeros k (natDigits n) ≠ [] := by
  intro h
  unfold padZeros at h
  obtain ⟨_, h2⟩ := List.append_eq_nil.mp h
  exact natDigits_ne_nil n h2

lemma dateStr_disjoint_lit (s : Str)
    (hs : ∀ c ∈ s, c ≠ 'Y' ∧ c ≠ 'M' ∧ c ≠ 'D') :
    (∀ a ∈ s, a ∉ litYYYY) ∧ (∀ a ∈ s, a ∉ litMM) ∧ (∀ a ∈ s, a ∉ litDD) ∧
    (∀ a ∈ litYYYY, a ∉ s) ∧ (∀ a ∈ litMM, a ∉ s) ∧ (∀ a ∈ litDD, a ∉ s) := by
  refine ⟨?_, ?_, ?_, ?_, ?_, ?_⟩
  · intro a ha hy
    simp [litYYYY] at hy
    exact (hs a ha).1 hy
  · intro a ha hy
    simp [litMM] at hy
    exact (hs a ha).2.1 hy
  · intro a ha hy
    simp [litDD] at hy
    exact (hs a ha).2.2 hy
  · intro a hy hst
    simp [litYYYY] at hy
    subst hy
    exact (hs 'Y' hst).1 rfl
  · intro a hy hst
    simp [litMM] at hy
    subst hy
    exact (hs 'M' hst).2.1 rfl
  · intro a hy hst
    simp [litDD] at hy
    subst hy
    exact (hs 'D' hst).2.2 rfl

lemma applyDateSubstitution_fixed (s : Str) (d : Date)
    (h1 : ¬ litYYYY <:+: s) (h2 : ¬ litMM <:+: s) (h3 : ¬ litDD <:+: s) :
    applyDateSubstitution s d = s := by
  unfold applyDateSubstitution
  rw [replaceAll_eq_self litYYYY (dateYYYY d) (by decide) s h1,
    replaceAll_eq_self litMM (dateMM d) (by decide) s h2,
    replaceAll_eq_self litDD (dateDD d) (by decide) s h3]

lemma applyDateSubstitution_no_placeholders (s : Str) (d : Date) :
    ¬ litYYYY <:+: applyDateSubstitution s d ∧
    ¬ litMM <:+: applyDateSubstitution s d ∧
    ¬ litDD <:+: applyDateSubstitution s d := by
  obtain ⟨yA, yB, yC, yD, yE, yF⟩ :=
    dateStr_disjoint_lit (dateYYYY d) (padZeros_not_placeholder 4 d.year)
  obtain ⟨mA, mB, mC, mD, mE, mF⟩ :=
    dateStr_disjoint_lit (dateMM d) (padZeros_not_placeholder 2 d.month)
  obtain ⟨dA, dB, dC, dD, dE, dF⟩ :=
    dateStr_disjoint_lit (dateDD d) (padZeros_not_placeholder 2 d.day)
  have hyne : dateYYYY d ≠ [] := padZeros_ne_nil 4 d.year
  have hmne : dateMM d ≠ [] := padZeros_ne_nil 2 d.month
  have hdne : dateDD d ≠ [] := padZeros_ne_nil 2 d.day
  have h1 : ¬ litYYYY <:+: replaceAll litYYYY (dateYYYY d) s :=
    replaceAll_not_contains_pat litYYYY (dateYYYY d) hyne (by decide) yA s
  have h2Y : ¬ litYYYY <:+:
      replaceAll litMM (dateMM d) (replaceAll litYYYY (dateYYYY d) s) :=
    fun hin => h1 (infix_of_replaceAll litMM (dateMM d) litYYYY hmne (by decide)
      (by decide) mD (replaceAll litYYYY (dateYYYY d) s) hin)
  have h2M : ¬ litMM <:+:
      replaceAll litMM (dateMM d) (replaceAll litYYYY (dateYYYY d) s) :=
    replaceAll_not_contains_pat litMM (dateMM d) hmne (by decide) mB
      (replaceAll litYYYY (dateYYYY d) s)
  refine ⟨?_, ?_, ?_⟩
  · intro hin
    exact h2Y (infix_of_replaceAll litDD (dateDD d) litYYYY hdne (by decide)
      (by decide) dD _ hin)
  · intro hin
    exact h2M (infix_of_replaceAll litDD (dateDD d) litMM hdne (by decide)
      (by decide) dE _ hin)
  · exact replaceAll_not_contains_pat litDD (dateDD d) hdne (by decide) dC _

theorem archive_batch_iff_upload_success_witness :
    1 ∈ (run cfgBase mboxBase (fun _ => true)).batch :=
  (archive_batch_iff_upload_success cfgBase mboxBase (fun _ => true) 1).mpr
    ⟨0, by decide, by decide, fun j hj => rfl⟩

/-- C8: the `YYYY`/`MM`/`DD` placeholder substitution performed by `main` on
the filename pattern template is idempotent — applying the substitution twice
with the same reference date yields the same string as applying it once,
because digit replacements can never recreate a placeholder token. -/
theorem date_substitution_idempotent (template : Str) (d : Date) :
    applyDateSubstitution (applyDateSubstitution template d) d =
      applyDateSubstitution template d := by
  obtain ⟨h1, h2, h3⟩ := applyDateSubstitution_no_placeholders template d
  exact applyDateSubstitution_fixed (applyDateSubstitution template d) d h1 h2 h3

end EmailDownloader
